import Mathlib

/-!
Shallow embedding of the buddy allocator of `src/buddy.c` / `src/bitvector.h`
(repository BuddyAllocator).

The two bitmaps (`used`, `split`) are embedded as total functions
`Nat → Bool`; `bv_set` / `bv_clear` from `src/bitvector.h` become pointwise
function updates (the C packs the bits into 32-bit words, which is
observationally the same bit store).  A region of the C region table is
passed as an explicit record: the C entry points index the global table
`region[r]` by `r` and fail silently for `r >= BUDDY_REGIONS_N`; here the
selected region record and its two bitmaps are the explicit arguments, which
is the same per-region behaviour (regions are fully independent).
-/

/-- `bv_set` of `src/bitvector.h`: set one bit of a bit vector. -/
def bvSet (v : Nat → Bool) (bit : Nat) : Nat → Bool :=
  Function.update v bit true

/-- `bv_clear` of `src/bitvector.h`: clear one bit of a bit vector. -/
def bvClear (v : Nat → Bool) (bit : Nat) : Nat → Bool :=
  Function.update v bit false

/-- One region of the C region table (`BUDDY_REGION` in `src/buddy.c`):
its configured sizes and base address.  `mapsize` and `treesize` are the
derived fields exactly as `buddy_config` computes them. -/
structure BuddyRegion where
  totalsize : Nat
  minsize : Nat
  base : Nat

/-- `region[r].mapsize = totalsize/minsize` (set by `buddy_config`). -/
def BuddyRegion.mapsize (cfg : BuddyRegion) : Nat :=
  cfg.totalsize / cfg.minsize

/-- `region[r].treesize = mapsize*2-1` (set by `buddy_config`). -/
def BuddyRegion.treesize (cfg : BuddyRegion) : Nat :=
  cfg.mapsize * 2 - 1

/-- The mutable per-region state: the `used` and `split` bit vectors. -/
structure BuddyState where
  used : Nat → Bool
  split : Nat → Bool

/-- `buddy_init_ex` (src/buddy.c lines 160-167): `bv_clearall` on both
bit vectors, i.e. the all-clear state. -/
def buddy_init_ex : BuddyState :=
  { used := fun _ => false, split := fun _ => false }

/-- `nodeinfo` of `src/buddy.c`: one frame of the explicit DFS stack. -/
structure NodeInfo where
  level : Nat
  index : Nat
  size : Nat
  addr : Nat

/-- The `while (sp > 0)` search loop of `buddy_alloc_ex`
(src/buddy.c lines 202-241).  The explicit stack is a list of `nodeinfo`
frames, head = top of stack; the left child `2k+1` is pushed last, so it is
the list head and is tried first, exactly as in the C.  The C loop's
termination depends on the region state, so the loop takes a fuel argument
for totality; running out of fuel yields the failure result `(none, st)`
(the claims below either hold for every fuel or are evaluated with fuel that
is concretely sufficient). -/
def allocLoop (cfg : BuddyRegion) (size : Nat) :
    Nat → List NodeInfo → BuddyState → Option Nat × BuddyState
  | 0, _, st => (none, st)
  | _ + 1, [], st => (none, st)
  | fuel + 1, node :: rest, st =>
    -- test if block already used
    if st.used node.index = true then
      allocLoop cfg size fuel rest st
    -- test if need full block: (size > s/2) || (s == minsize), then split test
    else if (node.size / 2 < size ∨ node.size = cfg.minsize) ∧
            st.split node.index = false then
      -- reserve it
      (some node.addr, { st with used := bvSet st.used node.index })
    else
      -- s /= 2; if (size > s) continue;
      if node.size / 2 < size then
        allocLoop cfg size fuel rest st
      else
        -- mark as split, push right child 2k+2 then left child 2k+1
        allocLoop cfg size fuel
          ({ level := node.level + 1, index := 2 * node.index + 1,
             size := node.size / 2, addr := node.addr } ::
           { level := node.level + 1, index := 2 * node.index + 2,
             size := node.size / 2, addr := node.addr + node.size / 2 } :: rest)
          { st with split := bvSet st.split node.index }

/-- `buddy_alloc_ex` (src/buddy.c lines 172-243) on a configured region:
reject when `size > totalsize`, reject when the root is used, otherwise run
the DFS from the root frame `(level 0, index 0, size totalsize, addr 0)`.
A successful search returns `(char*)base + a`, embedded as `base + a`;
the C's null-pointer failure is `none`. -/
def buddy_alloc_ex (cfg : BuddyRegion) (fuel : Nat) (size : Nat)
    (st : BuddyState) : Option Nat × BuddyState :=
  -- too big?
  if cfg.totalsize < size then (none, st)
  -- already full
  else if st.used 0 = true then (none, st)
  else
    let res := allocLoop cfg size fuel
      [{ level := 0, index := 0, size := cfg.totalsize, addr := 0 }] st
    (res.1.map (fun a => cfg.base + a), res.2)

/-- The first `while (k > 0)` loop of `buddy_free_ex`
(src/buddy.c lines 265-272): repeatedly `k /= 2`; the first node met whose
`used` bit is set has `used` and `split` cleared and the loop breaks there.
Returns the final `k` together with the state.  Each step halves `k`, so
fuel `k` always suffices (`freeClimb_fuel` below). -/
def freeClimb : Nat → BuddyState → Nat → Nat × BuddyState
  | 0, st, k => (k, st)
  | fuel + 1, st, k =>
    if k = 0 then (k, st)
    else
      let k2 := k / 2
      if st.used k2 = true then
        (k2, { used := bvClear st.used k2, split := bvClear st.split k2 })
      else
        freeClimb fuel st k2

/-- The second `while (k > 0)` loop of `buddy_free_ex`
(src/buddy.c lines 274-286): buddy `b = k+1` for odd `k`, `b = k-1` for even
`k`; when `used(k)=0 ∧ used(b)=0 ∧ split(k)=0 ∧ split(b)≠0`, clear
`split(k/2)`; then `k /= 2` and continue.  Fuel `k` always suffices
(`freeMerge_fuel` below). -/
def freeMerge : Nat → BuddyState → Nat → BuddyState
  | 0, st, _ => st
  | fuel + 1, st, k =>
    if k = 0 then st
    else
      let b := if k % 2 = 1 then k + 1 else k - 1
      let st2 :=
        if st.used k = false ∧ st.used b = false ∧ st.split k = false ∧
           st.split b = true then
          { st with split := bvClear st.split (k / 2) }
        else st
      freeMerge fuel st2 (k / 2)

/-- `buddy_free_ex` (src/buddy.c lines 251-287) on a configured region:
`disp = addr - base` (a `uint32_t`; for the addresses the allocator hands
out, `addr ≥ base` and the difference is below `2^32`, where this equals
the Nat subtraction), `d = disp / minsize`, leaf node `k = mapsize + d - 1`;
clear the leaf's `used` and `split` bits unconditionally, then the climb
loop, then the merge loop, each starting from the `k` the previous phase
ended at. -/
def buddy_free_ex (cfg : BuddyRegion) (addr : Nat) (st : BuddyState) :
    BuddyState :=
  let disp := addr - cfg.base
  let d := disp / cfg.minsize
  let k0 := cfg.mapsize + d - 1
  let st1 : BuddyState := { used := bvClear st.used k0,
                            split := bvClear st.split k0 }
  let c := freeClimb k0 st1 k0
  freeMerge c.1 c.2 c.1

/-- The parent formula of the spec and of the header comment of
`src/buddy.c` (lines 19-21): `antecessor(k) = (k-1)/2`. -/
def specParent (k : Nat) : Nat :=
  (k - 1) / 2

/-- The 16 MiB / 1 MiB region of the spec's concrete scenario
(`mapsize = 16`, `treesize = 31`), at the repository's base `0xC000000`. -/
def reg16 : BuddyRegion :=
  { totalsize := 16777216, minsize := 1048576, base := 201326592 }

/-- One MiB, the minimum block size of `reg16`. -/
def MiB : Nat := 1048576

/-- Scenario step: first `alloc(1 MiB)` from the initialized region. -/
def sA : Option Nat × BuddyState :=
  buddy_alloc_ex reg16 64 MiB buddy_init_ex

/-- Scenario step: second `alloc(1 MiB)`. -/
def sB : Option Nat × BuddyState :=
  buddy_alloc_ex reg16 64 MiB sA.2

/-- Scenario step: third allocation, `alloc(2 MiB)`. -/
def sC : Option Nat × BuddyState :=
  buddy_alloc_ex reg16 64 (2 * MiB) sB.2

/-- Scenario step: free the second 1 MiB block (`base + 1 MiB`), an address
previously returned and not yet freed. -/
def sD : BuddyState :=
  buddy_free_ex reg16 (reg16.base + MiB) sC.2

/-- Scenario step: `alloc(8 MiB)` after that free. -/
def sE : Option Nat × BuddyState :=
  buddy_alloc_ex reg16 64 (8 * MiB) sD

/-- Spec scenario step: free `base + 0` from the two-allocation state. -/
def sF : BuddyState :=
  buddy_free_ex reg16 (reg16.base + 0) sB.2

/-- Spec scenario step: then free `base + 1 MiB`. -/
def sG : BuddyState :=
  buddy_free_ex reg16 (reg16.base + MiB) sF

/-- Round-trip step: free `base + 0` right after the single first
allocation. -/
def sH : BuddyState :=
  buddy_free_ex reg16 (reg16.base + 0) sA.2

/-- Fuel adequacy for the climb loop: `k` halves at every step, so any fuel
of at least `k` steps (in particular the `k` used by `buddy_free_ex`)
computes the loop's real fixpoint. -/
theorem freeClimb_fuel : ∀ (k f1 f2 : Nat) (st : BuddyState),
    k ≤ f1 → k ≤ f2 → freeClimb f1 st k = freeClimb f2 st k := by
  intro k
  induction k using Nat.strong_induction_on with
  | _ k ih =>
    intro f1 f2 st h1 h2
    match f1, f2 with
    | 0, 0 => rfl
    | 0, f2 + 1 =>
      obtain rfl : k = 0 := Nat.le_zero.mp h1
      simp [freeClimb]
    | f1 + 1, 0 =>
      obtain rfl : k = 0 := Nat.le_zero.mp h2
      simp [freeClimb]
    | f1 + 1, f2 + 1 =>
      by_cases hk : k = 0
      · subst hk; simp [freeClimb]
      · have hlt : k / 2 < k := Nat.div_lt_self (Nat.pos_of_ne_zero hk) one_lt_two
        simp only [freeClimb, if_neg hk]
        by_cases hu : st.used (k / 2) = true
        · simp [hu]
        · simp only [hu, if_false, Bool.false_eq_true]
          exact ih (k / 2) hlt f1 f2 st (by omega) (by omega)

/-- Fuel adequacy for the merge loop: `k` halves at every step, so any fuel
of at least `k` steps computes the loop's real fixpoint. -/
theorem freeMerge_fuel : ∀ (k f1 f2 : Nat) (st : BuddyState),
    k ≤ f1 → k ≤ f2 → freeMerge f1 st k = freeMerge f2 st k := by
  intro k
  induction k using Nat.strong_induction_on with
  | _ k ih =>
    intro f1 f2 st h1 h2
    match f1, f2 with
    | 0, 0 => rfl
    | 0, f2 + 1 =>
      obtain rfl : k = 0 := Nat.le_zero.mp h1
      simp [freeMerge]
    | f1 + 1, 0 =>
      obtain rfl : k = 0 := Nat.le_zero.mp h2
      simp [freeMerge]
    | f1 + 1, f2 + 1 =>
      by_cases hk : k = 0
      · subst hk; simp [freeMerge]
      · have hlt : k / 2 < k := Nat.div_lt_self (Nat.pos_of_ne_zero hk) one_lt_two
        simp only [freeMerge, if_neg hk]
        exact ih (k / 2) hlt f1 f2 _ (by omega) (by omega)

/-- Clearing a bit never turns a bit on. -/
theorem bvClear_true_imp (v : Nat → Bool) (i j : Nat) :
    bvClear v i j = true → v j = true := by
  intro h
  by_cases hji : j = i
  · subst hji
    simp [bvClear, Function.update_same] at h
  · rwa [bvClear, Function.update_noteq hji] at h

/-- The climb loop never turns a `used` bit on. -/
theorem freeClimb_used_imp : ∀ (fuel : Nat) (st : BuddyState) (k j : Nat),
    ((freeClimb fuel st k).2).used j = true → st.used j = true := by
  intro fuel
  induction fuel with
  | zero => intro st k j h; exact h
  | succ n ih =>
    intro st k j h
    by_cases hk : k = 0
    · subst hk; simpa [freeClimb] using h
    · simp only [freeClimb, if_neg hk] at h
      by_cases hu : st.used (k / 2) = true
      · simp only [hu, if_true] at h
        exact bvClear_true_imp _ _ _ h
      · simp only [hu, if_false, Bool.false_eq_true] at h
        exact ih st (k / 2) j h

/-- The climb loop never turns a `split` bit on. -/
theorem freeClimb_split_imp : ∀ (fuel : Nat) (st : BuddyState) (k j : Nat),
    ((freeClimb fuel st k).2).split j = true → st.split j = true := by
  intro fuel
  induction fuel with
  | zero => intro st k j h; exact h
  | succ n ih =>
    intro st k j h
    by_cases hk : k = 0
    · subst hk; simpa [freeClimb] using h
    · simp only [freeClimb, if_neg hk] at h
      by_cases hu : st.used (k / 2) = true
      · simp only [hu, if_true] at h
        exact bvClear_true_imp _ _ _ h
      · simp only [hu, if_false, Bool.false_eq_true] at h
        exact ih st (k / 2) j h

/-- The merge loop leaves the `used` bit vector untouched. -/
theorem freeMerge_used_eq : ∀ (fuel : Nat) (st : BuddyState) (k : Nat),
    (freeMerge fuel st k).used = st.used := by
  intro fuel
  induction fuel with
  | zero => intro st k; rfl
  | succ n ih =>
    intro st k
    by_cases hk : k = 0
    · subst hk; simp [freeMerge]
    · simp only [freeMerge, if_neg hk]
      by_cases hc : st.used k = false ∧
          st.used (if k % 2 = 1 then k + 1 else k - 1) = false ∧
          st.split k = false ∧
          st.split (if k % 2 = 1 then k + 1 else k - 1) = true
      · rw [if_pos hc, ih]
      · rw [if_neg hc, ih]

/-- The merge loop never turns a `split` bit on. -/
theorem freeMerge_split_imp : ∀ (fuel : Nat) (st : BuddyState) (k j : Nat),
    (freeMerge fuel st k).split j = true → st.split j = true := by
  intro fuel
  induction fuel with
  | zero => intro st k j h; exact h
  | succ n ih =>
    intro st k j h
    by_cases hk : k = 0
    · subst hk; simpa [freeMerge] using h
    · simp only [freeMerge, if_neg hk] at h
      by_cases hc : st.used k = false ∧
          st.used (if k % 2 = 1 then k + 1 else k - 1) = false ∧
          st.split k = false ∧
          st.split (if k % 2 = 1 then k + 1 else k - 1) = true
      · rw [if_pos hc] at h
        exact bvClear_true_imp _ _ _ (ih _ _ j h)
      · rw [if_neg hc] at h
        exact ih _ _ j h

/-- `buddy_free_ex` never turns a `used` bit on. -/
theorem buddy_free_used_imp (cfg : BuddyRegion) (addr : Nat) (st : BuddyState)
    (j : Nat) : (buddy_free_ex cfg addr st).used j = true → st.used j = true := by
  intro h
  simp only [buddy_free_ex] at h
  rw [freeMerge_used_eq] at h
  exact bvClear_true_imp _ _ _ (freeClimb_used_imp _ _ _ _ h)

/-- `buddy_free_ex` never turns a `split` bit on. -/
theorem buddy_free_split_imp (cfg : BuddyRegion) (addr : Nat) (st : BuddyState)
    (j : Nat) : (buddy_free_ex cfg addr st).split j = true → st.split j = true := by
  intro h
  simp only [buddy_free_ex] at h
  exact bvClear_true_imp _ _ _
    (freeClimb_split_imp _ _ _ _ (freeMerge_split_imp _ _ _ _ h))

/-- Claim C1 (code bug).  In the configured 16 MiB / 1 MiB region, starting
from the initialized all-clear state, `alloc(1 MiB)` succeeds and returns
`base + 0`, yet after `free(base + 0)` the `split` bitmap is not all-clear:
the split bits of nodes 0, 1, 3 and 7, set while descending, survive the
free (the merge loop runs only when the climb finds a used ancestor, which a
leaf-level allocation never provides).  The round-trip property of the spec
fails on the code. -/
theorem alloc_free_roundtrip_leaves_split_bits :
    sA.1 = some (reg16.base + 0) ∧
    sH.used 15 = false ∧
    sH.split 0 = true ∧ sH.split 1 = true ∧
    sH.split 3 = true ∧ sH.split 7 = true := by
  decide

/-- Claim C2 (code bug).  `buddy_free_ex` climbs with `k /= 2`
(src/buddy.c line 266), not with the parent formula `(k-1)/2` of the spec
and of the file's own header comment.  Concretely: in the state `sC.2`
(reachable by `alloc(1 MiB)`, `alloc(1 MiB)`, `alloc(2 MiB)` on `reg16`),
freeing `base + 1 MiB` starts at leaf node 16, whose ancestors under
`specParent` are 7, 3, 1, 0 — but the climb visits node 8 = 16/2 and, since
node 8 is used (it is the unrelated outstanding 2 MiB allocation at
`base + 2 MiB`), clears its `used` bit. -/
theorem free_climb_visits_non_ancestor :
    sC.1 = some (reg16.base + 2 * MiB) ∧
    sC.2.used 8 = true ∧ sD.used 8 = false ∧
    specParent 16 = 7 ∧ specParent 7 = 3 ∧
    specParent 3 = 1 ∧ specParent 1 = 0 := by
  decide

/-- Claim C3 (code bug).  The spec's concrete scenario on the
16 MiB / 1 MiB region: the first `alloc(1 MiB)` returns `base + 0` (leaf
node 15 used), the second returns `base + 1 MiB` (leaf node 16 used);
`free(base + 0)` clears leaf 15 and leaves the parent's split bit
(node 7) set, as the claim says — but the subsequent `free(base + 1 MiB)`
also leaves `split(7)` set, where the claim requires it cleared: the merge
loop never runs for leaf-level allocations because the climb loop exhausts
to the root without finding a used ancestor. -/
theorem scenario16_parent_split_bit_not_cleared :
    sA.1 = some (reg16.base + 0) ∧
    sB.1 = some (reg16.base + MiB) ∧
    sF.used 15 = false ∧ sF.used 16 = true ∧ sF.split 7 = true ∧
    sG.used 16 = false ∧ sG.split 7 = true := by
  decide

/-- Claim C4 (code bug).  A legal sequence — `alloc(1 MiB) = base+0`,
`alloc(1 MiB) = base+1 MiB`, `alloc(2 MiB) = base+2 MiB`, then
`free(base+1 MiB)` (previously returned, not yet freed) — after which
`alloc(8 MiB)` returns `base + 0` although the 1 MiB block at `base + 0`
and the 2 MiB block at `base + 2 MiB` are still outstanding: the returned
8 MiB range `[base, base+8 MiB)` overlaps both, violating disjointness.
(The free wrongly cleared `used(8)` and `split(1)` on its `k /= 2` climb.) -/
theorem free_then_alloc_overlaps_outstanding :
    sA.1 = some (reg16.base + 0) ∧
    sB.1 = some (reg16.base + MiB) ∧
    sC.1 = some (reg16.base + 2 * MiB) ∧
    sE.1 = some (reg16.base + 0) := by
  decide

/-- Claim C8 (confirmed).  For every region and every size larger than the
region's `totalsize`, `buddy_alloc_ex` fails via its first guard
(src/buddy.c lines 187-189), returning the null sentinel and leaving both
bitmaps exactly as they were, for any bitmap state and any fuel. -/
theorem alloc_oversized_rejected (cfg : BuddyRegion) (fuel size : Nat)
    (st : BuddyState) (h : cfg.totalsize < size) :
    buddy_alloc_ex cfg fuel size st = (none, st) := by
  unfold buddy_alloc_ex
  rw [if_pos h]

/-- Witness for `alloc_oversized_rejected`: `alloc(totalsize + 1)` on the
16 MiB region in its initialized state fails and changes nothing. -/
theorem alloc_oversized_rejected_w :
    buddy_alloc_ex reg16 64 (reg16.totalsize + 1) buddy_init_ex =
      (none, buddy_init_ex) :=
  alloc_oversized_rejected reg16 64 (reg16.totalsize + 1) buddy_init_ex
    (by decide)

/-- Claim C10 (confirmed).  `buddy_free_ex` only ever clears bits: for every
region, every address and every node index, a `used` or `split` bit that is
0 before the call is still 0 after it (the free path consists solely of
`bv_clear` calls). -/
theorem free_only_clears_bits (cfg : BuddyRegion) (addr : Nat)
    (st : BuddyState) (j : Nat) :
    (st.used j = false → (buddy_free_ex cfg addr st).used j = false) ∧
    (st.split j = false → (buddy_free_ex cfg addr st).split j = false) := by
  constructor
  · intro h
    cases hb : (buddy_free_ex cfg addr st).used j with
    | false => rfl
    | true =>
      have := buddy_free_used_imp cfg addr st j hb
      rw [h] at this
      exact absurd this (by simp)
  · intro h
    cases hb : (buddy_free_ex cfg addr st).split j with
    | false => rfl
    | true =>
      have := buddy_free_split_imp cfg addr st j hb
      rw [h] at this
      exact absurd this (by simp)

/-- Witness for `free_only_clears_bits`: in the state after the first
scenario allocation, bit 20 of both bitmaps is clear and freeing
`base + 2 MiB` keeps both clear. -/
theorem free_only_clears_bits_w :
    (buddy_free_ex reg16 (reg16.base + 2 * MiB) sA.2).used 20 = false ∧
    (buddy_free_ex reg16 (reg16.base + 2 * MiB) sA.2).split 20 = false :=
  ⟨(free_only_clears_bits reg16 (reg16.base + 2 * MiB) sA.2 20).1 (by decide),
   (free_only_clears_bits reg16 (reg16.base + 2 * MiB) sA.2 20).2 (by decide)⟩

/-- Claim C7 (confirmed).  From the initialized region, `alloc(totalSize)`
succeeds, returning `base + 0` and setting the root's `used` bit; and
whenever the root's `used` bit is set, every `buddy_alloc_ex` call of any
size fails through the fast-path guard (src/buddy.c lines 191-193),
returning the null sentinel with the state unchanged — so the full-size
allocation succeeds exactly once. -/
theorem alloc_totalsize_once_then_root_fastpath (cfg : BuddyRegion)
    (fuel size : Nat) (st : BuddyState) (htot : 0 < cfg.totalsize)
    (hfuel : 0 < fuel) (hroot : st.used 0 = true) :
    (buddy_alloc_ex cfg fuel cfg.totalsize buddy_init_ex).1 =
        some (cfg.base + 0) ∧
    ((buddy_alloc_ex cfg fuel cfg.totalsize buddy_init_ex).2).used 0 = true ∧
    buddy_alloc_ex cfg fuel size st = (none, st) := by
  obtain ⟨f, rfl⟩ : ∃ f, fuel = f + 1 := ⟨fuel - 1, by omega⟩
  have hguard : ¬ (cfg.totalsize < cfg.totalsize) := lt_irrefl _
  have hused0 : ¬ (buddy_init_ex.used 0 = true) := by
    simp [buddy_init_ex]
  have hcond : (cfg.totalsize / 2 < cfg.totalsize ∨ cfg.totalsize = cfg.minsize) ∧
      buddy_init_ex.split 0 = false :=
    ⟨Or.inl (Nat.div_lt_self htot one_lt_two), rfl⟩
  refine ⟨?_, ?_, ?_⟩
  · simp only [buddy_alloc_ex, if_neg hguard, if_neg hused0, allocLoop]
    rw [if_pos hcond]
    rfl
  · simp only [buddy_alloc_ex, if_neg hguard, if_neg hused0, allocLoop]
    rw [if_pos hcond]
    simp [bvSet, Function.update_same]
  · by_cases hlt : cfg.totalsize < size
    · unfold buddy_alloc_ex
      rw [if_pos hlt]
    · unfold buddy_alloc_ex
      rw [if_neg hlt, if_pos hroot]

/-- Witness for `alloc_totalsize_once_then_root_fastpath`: on the 16 MiB
region, `alloc(16 MiB)` from the initialized state returns `base + 0` and
sets the root bit, and a 1 MiB request against the resulting state fails
with the state untouched. -/
theorem alloc_totalsize_once_then_root_fastpath_w :
    (buddy_alloc_ex reg16 1 reg16.totalsize buddy_init_ex).1 =
        some (reg16.base + 0) ∧
    ((buddy_alloc_ex reg16 1 reg16.totalsize buddy_init_ex).2).used 0 = true ∧
    buddy_alloc_ex reg16 1 MiB
        (buddy_alloc_ex reg16 1 reg16.totalsize buddy_init_ex).2 =
      (none, (buddy_alloc_ex reg16 1 reg16.totalsize buddy_init_ex).2) :=
  alloc_totalsize_once_then_root_fastpath reg16 1 MiB
    (buddy_alloc_ex reg16 1 reg16.totalsize buddy_init_ex).2
    (by decide) (by decide) (by decide)

/-- The mutual-exclusion invariant: no node has both its `used` and its
`split` bit set. -/
def usedSplitExclusive (st : BuddyState) : Prop :=
  ∀ k, ¬(st.used k = true ∧ st.split k = true)

/-- The search loop preserves mutual exclusion: it sets `used(k)` only after
seeing `split(k) = 0`, and sets `split(k)` only after seeing
`used(k) = 0`. -/
theorem allocLoop_exclusive (cfg : BuddyRegion) (size : Nat) :
    ∀ (fuel : Nat) (stack : List NodeInfo) (st : BuddyState),
      usedSplitExclusive st →
      usedSplitExclusive (allocLoop cfg size fuel stack st).2 := by
  intro fuel
  induction fuel with
  | zero => intro stack st h; exact h
  | succ n ih =>
    intro stack st h
    match stack with
    | [] => exact h
    | node :: rest =>
      rw [allocLoop]
      split_ifs with h1 h2 h3
      · exact ih rest st h
      · intro k
        rintro ⟨hu, hs⟩
        dsimp only at hu hs
        by_cases hk : k = node.index
        · subst hk
          rw [h2.2] at hs
          exact absurd hs (by simp)
        · rw [bvSet, Function.update_noteq hk] at hu
          exact h k ⟨hu, hs⟩
      · exact ih rest st h
      · apply ih
        intro k
        rintro ⟨hu, hs⟩
        dsimp only at hu hs
        by_cases hk : k = node.index
        · subst hk
          exact h1 hu
        · rw [bvSet, Function.update_noteq hk] at hs
          exact h k ⟨hu, hs⟩

/-- Freeing preserves mutual exclusion, because it only clears bits. -/
theorem buddy_free_exclusive (cfg : BuddyRegion) (addr : Nat)
    (st : BuddyState) (h : usedSplitExclusive st) :
    usedSplitExclusive (buddy_free_ex cfg addr st) := by
  intro k
  rintro ⟨hu, hs⟩
  exact h k ⟨buddy_free_used_imp cfg addr st k hu,
             buddy_free_split_imp cfg addr st k hs⟩

/-- States of a region reachable from the initialized all-clear state by any
sequence of `buddy_alloc_ex` and `buddy_free_ex` calls (any sizes, any
addresses, any search fuel — which also covers every partially run
search). -/
inductive BuddyReach (cfg : BuddyRegion) : BuddyState → Prop
  | init : BuddyReach cfg buddy_init_ex
  | alloc (fuel size : Nat) {st : BuddyState} (h : BuddyReach cfg st) :
      BuddyReach cfg (buddy_alloc_ex cfg fuel size st).2
  | free (addr : Nat) {st : BuddyState} (h : BuddyReach cfg st) :
      BuddyReach cfg (buddy_free_ex cfg addr st)

/-- Every reachable state satisfies mutual exclusion. -/
theorem reach_exclusive (cfg : BuddyRegion) (st : BuddyState)
    (h : BuddyReach cfg st) : usedSplitExclusive st := by
  induction h with
  | init =>
    intro k
    rintro ⟨hu, _⟩
    exact absurd hu (by simp [buddy_init_ex])
  | alloc fuel size h ih =>
    rename_i st2
    by_cases h1 : cfg.totalsize < size
    · simpa [buddy_alloc_ex, if_pos h1] using ih
    · by_cases hr : st2.used 0 = true
      · simpa [buddy_alloc_ex, if_neg h1, if_pos hr] using ih
      · simpa [buddy_alloc_ex, if_neg h1, if_neg hr] using
          allocLoop_exclusive cfg size fuel _ st2 ih
  | free addr h ih => exact buddy_free_exclusive _ _ _ ih

/-- Claim C5 (confirmed).  In every state reachable from an initialized
region by any sequence of `buddy_alloc_ex` and `buddy_free_ex` calls, no
node index below `treesize` ever has its `used` and its `split` bit set at
the same time: alloc sets `used(k)` only under `split(k) = 0` and sets
`split(k)` only under `used(k) = 0`, and free only clears bits. -/
theorem reachable_used_split_mutual_exclusion (cfg : BuddyRegion)
    (st : BuddyState) (h : BuddyReach cfg st) (k : Nat)
    (hk : k < cfg.treesize) :
    ¬(st.used k = true ∧ st.split k = true) :=
  reach_exclusive cfg st h k

/-- Witness for `reachable_used_split_mutual_exclusion`: the state after one
`alloc(1 MiB)` on the 16 MiB region is reachable, and node 7 (whose `split`
bit that allocation set) does not also carry a `used` bit. -/
theorem reachable_used_split_mutual_exclusion_w :
    ¬(((buddy_alloc_ex reg16 64 MiB buddy_init_ex).2).used 7 = true ∧
      ((buddy_alloc_ex reg16 64 MiB buddy_init_ex).2).split 7 = true) :=
  reachable_used_split_mutual_exclusion reg16
    (buddy_alloc_ex reg16 64 MiB buddy_init_ex).2
    (BuddyReach.alloc 64 MiB BuddyReach.init) 7 (by decide)

/-- All nodes at or beyond the leaf level have a clear `split` bit: the
leaf row of the tree starts at index `mapsize - 1`. -/
def leafSplitClear (cfg : BuddyRegion) (st : BuddyState) : Prop :=
  ∀ j, cfg.mapsize - 1 ≤ j → st.split j = false

/-- Structural well-formedness of one DFS stack frame for a region with
`totalsize = 2 ^ T` and `minsize = 2 ^ M`: the frame sits at some level `l`
of the tree, its block size is the level's block class `2 ^ (T - l)`, its
index lies in the level's index range `[2^l - 1, 2^(l+1) - 2]`, its address
is block-aligned and in range, and the request fits in it. -/
def frameOK (cfg : BuddyRegion) (T M size : Nat) (f : NodeInfo) : Prop :=
  ∃ l, l + M ≤ T ∧ f.size = 2 ^ (T - l) ∧
    2 ^ l - 1 ≤ f.index ∧ f.index ≤ 2 ^ (l + 1) - 2 ∧
    f.size ∣ f.addr ∧ f.addr + f.size ≤ cfg.totalsize ∧ size ≤ f.size

/-- Main loop invariant of the search: if every stack frame is structurally
well formed and every leaf-level `split` bit is clear, then the loop keeps
the leaf-level `split` bits clear, and any successful return yields the
address of a block of the smallest power-of-two class that accommodates the
request, aligned to that class and inside the region. -/
theorem allocLoop_main (cfg : BuddyRegion) (T M size : Nat)
    (hT : cfg.totalsize = 2 ^ T) (hM : cfg.minsize = 2 ^ M) (hMT : M ≤ T) :
    ∀ (fuel : Nat) (stack : List NodeInfo) (st : BuddyState),
      (∀ f ∈ stack, frameOK cfg T M size f) →
      leafSplitClear cfg st →
      leafSplitClear cfg (allocLoop cfg size fuel stack st).2 ∧
      ∀ a, (allocLoop cfg size fuel stack st).1 = some a →
        ∃ c, size ≤ c ∧ cfg.minsize ≤ c ∧ (c = cfg.minsize ∨ c / 2 < size) ∧
          (∃ i, c = 2 ^ i) ∧ cfg.minsize ∣ c ∧ c ∣ a ∧
          a + c ≤ cfg.totalsize := by
  have hmap : cfg.mapsize = 2 ^ (T - M) := by
    rw [BuddyRegion.mapsize, hT, hM, Nat.pow_div hMT (by norm_num)]
  intro fuel
  induction fuel with
  | zero =>
    intro stack st _ hS
    exact ⟨hS, fun a ha => absurd ha (by simp [allocLoop])⟩
  | succ n ih =>
    intro stack st hF hS
    match stack with
    | [] =>
      exact ⟨hS, fun a ha => absurd ha (by simp [allocLoop])⟩
    | node :: rest =>
      have hnode := hF node (List.mem_cons_self node rest)
      have hrest : ∀ f ∈ rest, frameOK cfg T M size f := fun f hf =>
        hF f (List.mem_cons_of_mem node hf)
      obtain ⟨l, hl, hsize, hlo, hhi, hdvd, hbound, hreq⟩ := hnode
      rw [allocLoop]
      split_ifs with h1 h2 h3
      · exact ih rest st hrest hS
      · refine ⟨hS, ?_⟩
        intro a ha
        obtain rfl : node.addr = a := by simpa using ha
        refine ⟨node.size, hreq, ?_, ?_, ⟨T - l, hsize⟩, ?_, hdvd, hbound⟩
        · rw [hM, hsize]
          exact Nat.pow_le_pow_right (by norm_num) (by omega)
        · rcases h2.1 with hc | hc
          · exact Or.inr hc
          · exact Or.inl hc
        · rw [hM, hsize]
          exact pow_dvd_pow 2 (by omega)
      · exact ih rest st hrest hS
      · -- push case: first, the frame cannot sit at the leaf level
        have hlM : l + M < T := by
          rcases Nat.lt_or_ge (l + M) T with hlt | hge
          · exact hlt
          · exfalso
            have heq : T - l = M := by omega
            have hsz : node.size = cfg.minsize := by rw [hsize, heq, hM]
            have hsplit : st.split node.index = false := by
              apply hS
              rw [hmap]
              have h2l : T - M = l := by omega
              rw [h2l]
              exact hlo
            exact h2 ⟨Or.inr hsz, hsplit⟩
        have hTl : T - l = (T - (l + 1)) + 1 := by omega
        have hhalf : node.size / 2 = 2 ^ (T - (l + 1)) := by
          rw [hsize, hTl, pow_succ, Nat.mul_div_cancel _ (by norm_num : 0 < 2)]
        have hdouble : node.size / 2 + node.size / 2 = node.size := by
          rw [hhalf, hsize, hTl, pow_succ]
          ring
        rw [pow_succ] at hhi
        have hone : (1:Nat) ≤ 2 ^ l := Nat.one_le_two_pow
        have hS' : leafSplitClear cfg
            { st with split := bvSet st.split node.index } := by
          intro j hj
          by_cases hji : j = node.index
          · exfalso
            subst hji
            rw [hmap] at hj
            have hle : 2 ^ l * 2 ≤ 2 ^ (T - M) := by
              rw [← pow_succ]
              exact Nat.pow_le_pow_right (by norm_num) (by omega)
            omega
          · show bvSet st.split node.index j = false
            rw [bvSet, Function.update_noteq hji]
            exact hS j hj
        apply ih
        · intro f hf
          rcases List.mem_cons.mp hf with rfl | hf2
          · refine ⟨l + 1, by omega, hhalf, ?_, ?_, ?_, ?_, ?_⟩
            · show 2 ^ (l + 1) - 1 ≤ 2 * node.index + 1
              rw [pow_succ]
              omega
            · show 2 * node.index + 1 ≤ 2 ^ (l + 1 + 1) - 2
              rw [pow_succ, pow_succ]
              omega
            · show node.size / 2 ∣ node.addr
              exact dvd_trans ⟨2, by omega⟩ hdvd
            · show node.addr + node.size / 2 ≤ cfg.totalsize
              omega
            · exact Nat.le_of_not_lt h3
          · rcases List.mem_cons.mp hf2 with rfl | hf3
            · refine ⟨l + 1, by omega, hhalf, ?_, ?_, ?_, ?_, ?_⟩
              · show 2 ^ (l + 1) - 1 ≤ 2 * node.index + 2
                rw [pow_succ]
                omega
              · show 2 * node.index + 2 ≤ 2 ^ (l + 1 + 1) - 2
                rw [pow_succ, pow_succ]
                omega
              · show node.size / 2 ∣ node.addr + node.size / 2
                exact dvd_add (dvd_trans ⟨2, by omega⟩ hdvd) dvd_rfl
              · show node.addr + node.size / 2 + node.size / 2 ≤ cfg.totalsize
                omega
              · exact Nat.le_of_not_lt h3
            · exact hrest f hf3
        · exact hS'

/-- The initial root frame of the search is structurally well formed
whenever the request passed the `size > totalsize` guard. -/
theorem rootFrame_ok (cfg : BuddyRegion) (T M size : Nat)
    (hT : cfg.totalsize = 2 ^ T) (hMT : M ≤ T)
    (hsz : ¬ cfg.totalsize < size) :
    ∀ f ∈ [({ level := 0, index := 0, size := cfg.totalsize,
              addr := 0 } : NodeInfo)],
      frameOK cfg T M size f := by
  intro f hf
  rcases List.mem_cons.mp hf with rfl | hf2
  · refine ⟨0, ?_, ?_, ?_, ?_, ?_, ?_, ?_⟩
    · show 0 + M ≤ T
      omega
    · show cfg.totalsize = 2 ^ (T - 0)
      rw [Nat.sub_zero]
      exact hT
    · show 2 ^ 0 - 1 ≤ 0
      norm_num
    · show (0:Nat) ≤ 2 ^ (0 + 1) - 2
      exact Nat.zero_le _
    · show cfg.totalsize ∣ 0
      exact dvd_zero _
    · show 0 + cfg.totalsize ≤ cfg.totalsize
      omega
    · exact Nat.le_of_not_lt hsz
  · exact absurd hf2 (List.not_mem_nil f)

/-- On a power-of-two region, every reachable state keeps the `split` bits
of the whole leaf level (indices `mapsize - 1` and beyond) clear. -/
theorem reach_leafSplitClear (cfg : BuddyRegion) (T M : Nat)
    (hT : cfg.totalsize = 2 ^ T) (hM : cfg.minsize = 2 ^ M) (hMT : M ≤ T)
    (st : BuddyState) (h : BuddyReach cfg st) : leafSplitClear cfg st := by
  induction h with
  | init => intro j hj; rfl
  | alloc fuel size h ih =>
    rename_i st2
    by_cases h1 : cfg.totalsize < size
    · simpa [buddy_alloc_ex, if_pos h1] using ih
    · by_cases hr : st2.used 0 = true
      · simpa [buddy_alloc_ex, if_neg h1, if_pos hr] using ih
      · have hmain := allocLoop_main cfg T M size hT hM hMT fuel _ st2
          (rootFrame_ok cfg T M size hT hMT h1) ih
        simpa [buddy_alloc_ex, if_neg h1, if_neg hr] using hmain.1
  | free addr h ih =>
    rename_i st2
    intro j hj
    cases hb : (buddy_free_ex cfg addr st2).split j with
    | false => rfl
    | true =>
      have hx := buddy_free_split_imp cfg addr st2 j hb
      rw [ih j hj] at hx
      exact absurd hx (by simp)

/-- Claim C6 (confirmed).  Whenever `buddy_alloc_ex` succeeds on a
configured power-of-two region (`totalsize = 2^T`, `minsize = 2^M`,
`M ≤ T`, request `size ≥ 1`) in any reachable state, the returned address
is `base + off` where, for `c` the smallest power-of-two block class at
least `max(size, minsize)` (characterized by `size ≤ c`, `minsize ≤ c` and
`c = minsize ∨ c / 2 < size`), the offset `off` is a multiple of `c` (hence
of `minsize`) and `off + c ≤ totalsize`: the block lies within
`[base, base + totalsize)`. -/
theorem alloc_success_aligned_in_range (cfg : BuddyRegion)
    (T M fuel size : Nat) (st : BuddyState) (a : Nat)
    (hT : cfg.totalsize = 2 ^ T) (hM : cfg.minsize = 2 ^ M) (hMT : M ≤ T)
    (hreach : BuddyReach cfg st) (hpos : 0 < size)
    (hsucc : (buddy_alloc_ex cfg fuel size st).1 = some a) :
    ∃ off c, a = cfg.base + off ∧ size ≤ c ∧ cfg.minsize ≤ c ∧
      (c = cfg.minsize ∨ c / 2 < size) ∧ (∃ i, c = 2 ^ i) ∧
      cfg.minsize ∣ c ∧ c ∣ off ∧ off + c ≤ cfg.totalsize := by
  by_cases h1 : cfg.totalsize < size
  · rw [buddy_alloc_ex, if_pos h1] at hsucc
    exact absurd hsucc (by simp)
  · by_cases hr : st.used 0 = true
    · rw [buddy_alloc_ex, if_neg h1, if_pos hr] at hsucc
      exact absurd hsucc (by simp)
    · have hleaf := reach_leafSplitClear cfg T M hT hM hMT st hreach
      have hmain := (allocLoop_main cfg T M size hT hM hMT fuel _ st
        (rootFrame_ok cfg T M size hT hMT h1) hleaf).2
      simp only [buddy_alloc_ex, if_neg h1, if_neg hr] at hsucc
      obtain ⟨off, hoff, hba⟩ := Option.map_eq_some'.mp hsucc
      obtain ⟨c, hc1, hc2, hc3, hc4, hc5, hc6, hc7⟩ := hmain off hoff
      exact ⟨off, c, hba.symm, hc1, hc2, hc3, hc4, hc5, hc6, hc7⟩

/-- Witness for `alloc_success_aligned_in_range`: the first scenario
allocation (`alloc(1 MiB)` on the initialized 16 MiB region, with
`T = 24`, `M = 20`) returns `base + 0`, and the conclusion holds of it. -/
theorem alloc_success_aligned_in_range_w :
    ∃ off c, 201326592 = reg16.base + off ∧ 1048576 ≤ c ∧
      reg16.minsize ≤ c ∧ (c = reg16.minsize ∨ c / 2 < 1048576) ∧
      (∃ i, c = 2 ^ i) ∧ reg16.minsize ∣ c ∧ c ∣ off ∧
      off + c ≤ reg16.totalsize :=
  alloc_success_aligned_in_range reg16 24 20 64 1048576 buddy_init_ex
    201326592 (by decide) (by decide) (by decide)
    BuddyReach.init (by decide) (by decide)
